import Mathlib

set_option linter.unnecessarySeqFocus false
set_option linter.unusedTactic false
set_option linter.unreachableTactic false

/-!
Verification development for the peewee storage adapter
(social_peewee/storage.py).  The Python source is shallowly embedded:
each table is a list of rows threaded explicitly through the class
methods, peewee query objects become executable predicates, and Python
exceptions become explicit error values.  Definitions follow the source
line by line; doc comments cite the lines they embed and record the
behaviour of the external peewee primitives the source calls.
-/

/-- Column values appearing in query criteria: Python strings, ints and bools. -/
inductive Val where
  | s (v : String)
  | i (v : Int)
  | b (v : Bool)
deriving DecidableEq

/-- Query predicates built by the adapter: the Python literal True used to seed
the accumulator in get_query_by_dict_param, a field equality test, and
conjunction. -/
inductive Query where
  | tt
  | eq (field : String) (value : Val)
  | and (q1 q2 : Query)
deriving DecidableEq

/-- A row viewed through the mapping layer: an association list from column
names to values. -/
def Row : Type := List (String × Val)

instance : DecidableEq Row := by unfold Row; infer_instance

/-- Value of a named column of a row. -/
def rowGet (r : Row) (f : String) : Option Val :=
  match r with
  | [] => none
  | (g, v) :: rest => if g = f then some v else rowGet rest f

/-- Truth of a query predicate on one row (peewee evaluates the corresponding
SQL condition against the row). -/
def evalQuery : Query → Row → Bool
  | .tt, _ => true
  | .eq f v, r => rowGet r f == some v
  | .and a b, r => evalQuery a r && evalQuery b r

/-- Embedding of get_query_by_dict_param (storage.py lines 19-25).  The
function initialises the accumulator with the Python literal True, then
iterates over the mapping; the return statement sits INSIDE the for loop, so
the function returns as soon as the first entry has been processed.  For an
empty mapping the loop body never runs and the function falls off the end,
returning Python None (modelled as Option.none).  Python dicts iterate in
insertion order, so the list order is the mapping order. -/
def get_query_by_dict_param (params : List (String × Val)) : Option Query :=
  match params with
  | [] => none
  | (f, v) :: _ => some (Query.and Query.tt (Query.eq f v))

/-- Conjunction of all field/value tests of a criteria mapping, as the spec
prescribes for the predicate builder.  Used only to state how the source
diverges from the specified behaviour. -/
def satisfiesAll (r : Row) (params : List (String × Val)) : Bool :=
  params.all (fun p => rowGet r p.1 == some p.2)

/-- Row filter of a select whose where clause received the builder result.
peewee stores no WHERE clause when the expression is None (where(None)
reduces to None and SQL generation emits a clause only for a non-None
expression), so a None predicate leaves the select unfiltered and every row
matches. -/
def whereMatches (q : Option Query) (r : Row) : Bool :=
  match q with
  | none => true
  | some q => evalQuery q r

/-- External user model row (application defined, injected).  The column
values are kept as an association list because get_query_by_dict_param
addresses columns by name; hasUsablePassword is the optional
has_usable_password attribute (none models a user object without the
attribute, so that hasattr is false). -/
structure User where
  id : Nat
  fields : List (String × Val)
  hasUsablePassword : Option Bool
deriving DecidableEq

/-- Columns of a user row as seen by the query layer: the implicit primary
key column id, then the declared columns. -/
def rowOf (u : User) : Row :=
  ("id", Val.i u.id) :: u.fields

/-- Embedding of PeeweeUserMixin.user_exists (lines 78-85): build the
predicate with get_query_by_dict_param over the keyword criteria, count the
matching user rows, return whether the count is positive. -/
def PeeweeUserMixin.user_exists (users : List User) (kwargs : List (String × Val)) : Bool :=
  let query := get_query_by_dict_param kwargs
  decide (0 < (users.filter (fun u => whereMatches query (rowOf u))).length)

/-- Embedding of PeeweeUserMixin.get_user (lines 98-107).  Python tests the
pk argument for truthiness, so both None and 0 leave the keyword criteria in
place; a truthy pk replaces them by the single pair id = pk.  Model.get
returns the first row of the select and raises DoesNotExist when there is
none; the except branch turns that into None. -/
def PeeweeUserMixin.get_user (users : List User) (pk : Option Nat)
    (kwargs : List (String × Val)) : Option User :=
  let kwargs :=
    match pk with
    | some p => if p = 0 then kwargs else [("id", Val.i p)]
    | none => kwargs
  let query := get_query_by_dict_param kwargs
  (users.filter (fun u => whereMatches query (rowOf u))).head?

/-- Row of the social-auth table declared by PeeweeUserMixin (lines 36-40).
The user column is the foreign key to the external user model that a
concrete subclass supplies (the mixin leaves the class attribute as a
placeholder); peewee compares it by primary key.  extraData keeps the stored
text of the JSONField column. -/
structure SocialAuthRow where
  id : Nat
  provider : String
  uid : String
  userId : Nat
  extraData : Option (List Char)
deriving DecidableEq

/-- Social-auth table plus the auto-increment counter of the engine. -/
structure SocialAuthState where
  rows : List SocialAuthRow
  nextId : Nat
deriving DecidableEq

/-- Argument of uid parameters: a Python string or a non-string such as an
int.  Both create_social_auth and get_social_auth coerce non-strings with
str(). -/
inductive Uid where
  | s (v : String)
  | i (v : Int)
deriving DecidableEq

/-- Coercion performed by the isinstance/str dance of lines 116-117 and
136-137: strings pass through, any other value is rendered with str(). -/
def uidToStr : Uid → String
  | .s v => v
  | .i v => toString v

/-- Embedding of PeeweeUserMixin.create_social_auth (lines 134-138): coerce
uid to text, insert a fresh row with the next id; peewee appends it to the
table. -/
def PeeweeUserMixin.create_social_auth (st : SocialAuthState) (user : User)
    (uid : Uid) (provider : String) : SocialAuthRow × SocialAuthState :=
  let uidS := uidToStr uid
  let row : SocialAuthRow :=
    { id := st.nextId, provider := provider, uid := uidS,
      userId := user.id, extraData := none }
  (row, { rows := st.rows ++ [row], nextId := st.nextId + 1 })

/-- Embedding of PeeweeUserMixin.get_social_auth (lines 114-123): coerce uid
to text, select the rows with equal provider and uid, take the first; the
DoesNotExist handler returns None when there is no match. -/
def PeeweeUserMixin.get_social_auth (st : SocialAuthState) (provider : String)
    (uid : Uid) : Option SocialAuthRow :=
  let uidS := uidToStr uid
  (st.rows.filter (fun r => r.provider == provider && r.uid == uidS)).head?

/-- Exclusion filter of allowed_to_disconnect (lines 62-65): with an
association id the row being disconnected is excluded by id, otherwise every
row of the named backend is excluded by provider. -/
def disconnectExcluded (association_id : Option Nat) (backend_name : String)
    (r : SocialAuthRow) : Bool :=
  match association_id with
  | some aid => r.id != aid
  | none => r.provider != backend_name

/-- Password test of lines 68-71: call has_usable_password when the user
object has the attribute, otherwise assume a valid password. -/
def userValidPassword (u : User) : Bool :=
  match u.hasUsablePassword with
  | some b => b
  | none => true

/-- Embedding of PeeweeUserMixin.allowed_to_disconnect (lines 60-72): filter
the social-auth rows by the exclusion criterion and by ownership, and return
valid_password or count() greater than zero. -/
def PeeweeUserMixin.allowed_to_disconnect (st : SocialAuthState) (user : User)
    (backend_name : String) (association_id : Option Nat) : Bool :=
  let rows := st.rows.filter
    (fun r => disconnectExcluded association_id backend_name r && r.userId == user.id)
  userValidPassword user || decide (0 < rows.length)

/-- Python exceptions surfaced by the embedded calls. -/
inductive PyErr where
  | typeError
  | attributeError
deriving DecidableEq

/-- Row of the nonce table declared by PeeweeNonceMixin (lines 141-144). -/
structure NonceRow where
  id : Nat
  server_url : String
  timestamp : String
  salt : String
deriving DecidableEq

/-- Nonce table plus auto-increment counter. -/
structure NonceState where
  rows : List NonceRow
  nextId : Nat
deriving DecidableEq

/-- Column view of a nonce row for keyword matching. -/
def nonceRowGet (r : NonceRow) (f : String) : Option Val :=
  if f = "server_url" then some (Val.s r.server_url)
  else if f = "timestamp" then some (Val.s r.timestamp)
  else if f = "salt" then some (Val.s r.salt)
  else none

/-- String content of an optional keyword value, defaulting to the empty
string (the default is never exercised by the calls embedded here). -/
def valStr (o : Option Val) : String :=
  match o with
  | some (Val.s s) => s
  | _ => ""

/-- Model of the peewee classmethod Model.get_or_create as resolved on
PeeweeNonceMixin.  Its Python signature is get_or_create(cls, **kwargs): it
accepts keyword arguments only, so a call that passes any positional
argument raises TypeError at argument binding, before the body runs.  When
the binding succeeds, the body selects the rows matching every keyword
equality and returns (row, False) on a hit, otherwise inserts a row built
from the keywords and returns (new row, True). -/
def nonce_get_or_create (st : NonceState) (positional : List Query)
    (kwargs : List (String × Val)) : Except PyErr ((NonceRow × Bool) × NonceState) :=
  if positional.isEmpty then
    match (st.rows.filter
        (fun r => kwargs.all (fun kv => nonceRowGet r kv.1 == some kv.2))).head? with
    | some r => Except.ok ((r, false), st)
    | none =>
      let r : NonceRow :=
        { id := st.nextId,
          server_url := valStr (kwargs.lookup "server_url"),
          timestamp := valStr (kwargs.lookup "timestamp"),
          salt := valStr (kwargs.lookup "salt") }
      Except.ok ((r, true), { rows := st.rows ++ [r], nextId := st.nextId + 1 })
  else Except.error PyErr.typeError

/-- Embedding of PeeweeNonceMixin.use (lines 146-150).  The source passes
the three equality expressions positionally, as in
get_or_create(cls.server_url == server_url, ...), and passes no keyword
arguments, so the keyword-only signature of Model.get_or_create rejects the
call with TypeError and no row is read or written. -/
def PeeweeNonceMixin.use (st : NonceState) (server_url timestamp salt : String) :
    Except PyErr ((NonceRow × Bool) × NonceState) :=
  nonce_get_or_create st
    [Query.eq "server_url" (Val.s server_url),
     Query.eq "timestamp" (Val.s timestamp),
     Query.eq "salt" (Val.s salt)]
    []

/-- Row of the association table declared by PeeweeAssociationMixin
(lines 153-159). -/
structure AssocRow where
  id : Nat
  server_url : String
  handle : String
  secret : String
  issued : String
  lifetime : String
  assoc_type : String
deriving DecidableEq

/-- Column view of an association row for keyword matching. -/
def assocRowFields (r : AssocRow) : Row :=
  [("id", Val.i r.id), ("server_url", Val.s r.server_url),
   ("handle", Val.s r.handle), ("secret", Val.s r.secret),
   ("issued", Val.s r.issued), ("lifetime", Val.s r.lifetime),
   ("assoc_type", Val.s r.assoc_type)]

/-- Association value handed to store by the authentication pipeline: a
handle, a raw-bytes secret and the issued/lifetime/assoc_type attributes. -/
structure AssociationValue where
  handle : String
  secret : List Nat
  issued : String
  lifetime : String
  assoc_type : String
deriving DecidableEq

/-- Embedding of the classmethod PeeweeAssociationMixin.get
(lines 176-179).  Positional arguments land in *args and the body never
reads them; the predicate is built from the keyword mapping alone, and the
result is the select query (its row set), not a single row, so the method
never raises DoesNotExist. -/
def PeeweeAssociationMixin.get (st : List AssocRow) (positional : List Query)
    (kwargs : List (String × Val)) : List AssocRow :=
  let _ := positional
  let query := get_query_by_dict_param kwargs
  st.filter (fun r => whereMatches query (assocRowFields r))

/-- Embedding of PeeweeAssociationMixin.store (lines 161-174).  The call
cls.get(cls.server_url == server_url, cls.handle == association.handle)
resolves to the get classmethod defined in the same class (lines 176-179),
which shadows peewee's Model.get: the two equality expressions are swallowed
by *args and ignored, the empty keyword mapping makes the builder return
None, and the result bound to assoc is the unfiltered SelectQuery.  The
except DoesNotExist branch is dead because that get never raises.  The
subsequent attribute assignments mutate the transient query object, and
assoc.save() then raises AttributeError because peewee's SelectQuery class
defines no save method (under Python 3.9 or later the earlier
base64.encodestring lookup already raises AttributeError, the attribute
having been removed).  In every case the call raises AttributeError and the
table is left unchanged. -/
def PeeweeAssociationMixin.store (st : List AssocRow) (server_url : String)
    (association : AssociationValue) : Except PyErr Unit × List AssocRow :=
  let _assoc := PeeweeAssociationMixin.get st
    [Query.eq "server_url" (Val.s server_url),
     Query.eq "handle" (Val.s association.handle)]
    []
  (Except.error PyErr.attributeError, st)

/-- Rows selected by the query cls.select().where(cls.id << ids_to_delete)
built in remove (line 183). -/
def PeeweeAssociationMixin.removeQuery (st : List AssocRow) (ids : List Nat) :
    List AssocRow :=
  st.filter (fun r => ids.contains r.id)

/-- Embedding of PeeweeAssociationMixin.remove (lines 181-183).  The body
builds the select query and then calls .delete() on it; peewee's SelectQuery
exposes no delete method (bulk deletion is written
Model.delete().where(...).execute()), so the attribute lookup raises
AttributeError and no row is removed.  Even read as building a delete query,
nothing calls execute(), so the table would still be untouched. -/
def PeeweeAssociationMixin.remove (st : List AssocRow) (ids : List Nat) :
    Except PyErr Unit × List AssocRow :=
  let _query := PeeweeAssociationMixin.removeQuery st ids
  (Except.error PyErr.attributeError, st)

/-- Row of the code table declared by PeeweeCodeMixin (lines 186-189). -/
structure CodeRow where
  id : Nat
  email : String
  code : String
  issued : String
deriving DecidableEq

/-- Embedding of PeeweeCodeMixin.get_code (lines 191-196): first row whose
code column matches, None when absent (the DoesNotExist handler). -/
def PeeweeCodeMixin.get_code (st : List CodeRow) (code : String) : Option CodeRow :=
  (st.filter (fun r => r.code == code)).head?

/-- Row of the table declared by PeeweePartialMixin (lines 199-203); data
keeps the stored text of the JSONField column. -/
structure PipelineRow where
  id : Nat
  token : String
  data : Option (List Char)
  next_step : Int
  backend : String
deriving DecidableEq

/-- Embedding of PeeweePartialMixin.load (lines 205-210): first row whose
token column matches, None when absent. -/
def PeeweePartialMixin.load (st : List PipelineRow) (token : String) : Option PipelineRow :=
  (st.filter (fun r => r.token == token)).head?

/-- Exception classes visible to the storage facade: peewee's hierarchy
(IntegrityError and DataError both subclass DatabaseError, which subclasses
PeeweeException, which subclasses Exception), a driver-level strict subclass
of IntegrityError, and an unrelated ValueError. -/
inductive ExcClass where
  | exceptionCls
  | peeweeExceptionCls
  | databaseErrorCls
  | dataErrorCls
  | integrityErrorCls
  | driverIntegrityErrorCls
  | valueErrorCls
deriving DecidableEq

/-- Method resolution chain of each exception class, the class itself first. -/
def ExcClass.ancestors : ExcClass → List ExcClass
  | .exceptionCls => [.exceptionCls]
  | .peeweeExceptionCls => [.peeweeExceptionCls, .exceptionCls]
  | .databaseErrorCls => [.databaseErrorCls, .peeweeExceptionCls, .exceptionCls]
  | .dataErrorCls => [.dataErrorCls, .databaseErrorCls, .peeweeExceptionCls, .exceptionCls]
  | .integrityErrorCls =>
    [.integrityErrorCls, .databaseErrorCls, .peeweeExceptionCls, .exceptionCls]
  | .driverIntegrityErrorCls =>
    [.driverIntegrityErrorCls, .integrityErrorCls, .databaseErrorCls,
     .peeweeExceptionCls, .exceptionCls]
  | .valueErrorCls => [.valueErrorCls, .exceptionCls]

/-- An exception value carries its concrete class. -/
structure PyExc where
  cls : ExcClass
deriving DecidableEq

/-- Python isinstance over the modelled hierarchy. -/
def isInstanceOf (e : PyExc) (c : ExcClass) : Bool :=
  e.cls.ancestors.contains c

/-- Embedding of BasePeeweeStorage.is_integrity_error (lines 226-228): the
test exception.__class__ is IntegrityError compares the concrete class for
identity with peewee's IntegrityError class. -/
def BasePeeweeStorage.is_integrity_error (e : PyExc) : Bool :=
  e.cls == ExcClass.integrityErrorCls

/-- JSON-representable values handled by the JSONField codec
(storage.py lines 10-16).  Objects are Python dicts, modelled as
insertion-ordered key/value lists (a Python dict always has distinct keys);
array elements are nested values; strings are lists of Unicode scalar
values; numbers are modelled as arbitrary-precision integers, Python float
scalars being outside this shallow embedding.  Python's None is JVal.null. -/
inductive JVal where
  | null
  | bool (b : Bool)
  | num (n : Int)
  | str (s : List Char)
  | arr (elems : List JVal)
  | obj (members : List (List Char × JVal))

/-- Decimal digit character for a value below ten. -/
def digitChar (n : Nat) : Char := Char.ofNat (48 + n)

/-- Decimal digits of a natural number, most significant first, as emitted
by Python str(). -/
def natDigs (n : Nat) : List Char :=
  if _h : n < 10 then [digitChar n] else natDigs (n / 10) ++ [digitChar (n % 10)]
decreasing_by exact Nat.div_lt_self (by omega) (by omega)

/-- Decimal rendering of a Python int, as json.dumps emits it. -/
def intDigs (i : Int) : List Char :=
  if i < 0 then '-' :: natDigs i.natAbs else natDigs i.natAbs

/-- Lowercase hexadecimal digit character for a value below sixteen. -/
def hexDigitChar (n : Nat) : Char :=
  if n < 10 then Char.ofNat (48 + n) else Char.ofNat (87 + n)

/-- Four lowercase hex digits of a value below 65536, as Python's %04x. -/
def hex4 (n : Nat) : List Char :=
  [hexDigitChar (n / 4096 % 16), hexDigitChar (n / 256 % 16),
   hexDigitChar (n / 16 % 16), hexDigitChar (n % 16)]

/-- One backslash-u escape. -/
def uEsc (n : Nat) : List Char := '\\' :: 'u' :: hex4 n

/-- Escape of one character per json.dumps with its default ensure_ascii:
the two-character escapes of the C escape table, backslash-u escapes for the
remaining control characters and for every character outside printable
ASCII (a surrogate pair when the code point is astral), and the character
itself otherwise. -/
def escChar (c : Char) : List Char :=
  if c = '"' then ['\\', '"']
  else if c = '\\' then ['\\', '\\']
  else if c = '\x08' then ['\\', 'b']
  else if c = '\x0c' then ['\\', 'f']
  else if c = '\n' then ['\\', 'n']
  else if c = '\r' then ['\\', 'r']
  else if c = '\t' then ['\\', 't']
  else if c.toNat < 32 || 126 < c.toNat then
    if c.toNat < 65536 then uEsc c.toNat
    else uEsc (55296 + (c.toNat - 65536) / 1024) ++ uEsc (56320 + (c.toNat - 65536) % 1024)
  else [c]

/-- Escaped body of a string literal. -/
def escBody : List Char → List Char
  | [] => []
  | c :: cs => escChar c ++ escBody cs

/-- A JSON string literal: quote, escaped body, quote. -/
def encStr (s : List Char) : List Char := '"' :: (escBody s ++ ['"'])

mutual

/-- Embedding of json.dumps with its defaults (ensure_ascii true, item
separator comma-space, key separator colon-space), restricted to the value
domain of JVal. -/
def dumps : JVal → List Char
  | .null => 'n' :: ['u', 'l', 'l']
  | .bool true => 't' :: ['r', 'u', 'e']
  | .bool false => 'f' :: ['a', 'l', 's', 'e']
  | .num i => intDigs i
  | .str s => encStr s
  | .arr [] => ['[', ']']
  | .arr (e :: es) => '[' :: (dumps e ++ dumpsArrRest es) ++ [']']
  | .obj [] => ['\x7b', '\x7d']
  | .obj (m :: ms) => '\x7b' :: (dumpsMember m ++ dumpsObjRest ms) ++ ['\x7d']

/-- One object member: key literal, colon, space, value. -/
def dumpsMember : List Char × JVal → List Char
  | (k, v) => encStr k ++ ':' :: ' ' :: dumps v

/-- Remaining array elements, each preceded by comma-space. -/
def dumpsArrRest : List JVal → List Char
  | [] => []
  | e :: es => ',' :: ' ' :: (dumps e ++ dumpsArrRest es)

/-- Remaining object members, each preceded by comma-space. -/
def dumpsObjRest : List (List Char × JVal) → List Char
  | [] => []
  | m :: ms => ',' :: ' ' :: (dumpsMember m ++ dumpsObjRest ms)

end

/-- JSON whitespace as skipped by Python's scanner. -/
def isWsC (c : Char) : Bool :=
  c = ' ' || c = '\t' || c = '\n' || c = '\r'

/-- Drop leading JSON whitespace. -/
def skipWs : List Char → List Char
  | [] => []
  | c :: cs => if isWsC c then skipWs cs else c :: cs

/-- Decimal digit test. -/
def isDigitC (c : Char) : Bool := 48 ≤ c.toNat && c.toNat ≤ 57

/-- Numeric value of a decimal digit character. -/
def digVal (c : Char) : Nat := c.toNat - 48

/-- Longest digit prefix and the remaining input. -/
def spanDigits : List Char → List Char × List Char
  | [] => ([], [])
  | c :: cs =>
    if isDigitC c then
      let p := spanDigits cs
      (c :: p.1, p.2)
    else ([], c :: cs)

/-- Natural number denoted by a digit list, most significant first. -/
def digitsToNat (ds : List Char) : Nat :=
  ds.foldl (fun a c => 10 * a + digVal c) 0

/-- Parse a nonempty run of digits into a natural number. -/
def pNat (s : List Char) : Option (Nat × List Char) :=
  match spanDigits s with
  | ([], _) => none
  | (ds, r) => some (digitsToNat ds, r)

/-- Numeric value of a hexadecimal digit character, either case. -/
def hexVal (c : Char) : Option Nat :=
  if 48 ≤ c.toNat ∧ c.toNat ≤ 57 then some (c.toNat - 48)
  else if 97 ≤ c.toNat ∧ c.toNat ≤ 102 then some (c.toNat - 87)
  else if 65 ≤ c.toNat ∧ c.toNat ≤ 70 then some (c.toNat - 55)
  else none

/-- Inverse of the simple two-character escapes accepted by the scanner. -/
def escSimple (e : Char) : Option Char :=
  if e = '"' then some '"'
  else if e = '\\' then some '\\'
  else if e = '/' then some '/'
  else if e = 'b' then some '\x08'
  else if e = 'f' then some '\x0c'
  else if e = 'n' then some '\n'
  else if e = 'r' then some '\r'
  else if e = 't' then some '\t'
  else none

/-- Lookahead for a backslash-u low-surrogate escape: when the input starts
with one, its code unit and the input after it, otherwise none.  The helper
is not recursive; the scanner uses it to pair surrogates. -/
def isLowSurEsc (r3 : List Char) : Option (Nat × List Char) :=
  match r3 with
  | e2 :: u2 :: a2 :: b2 :: g2 :: d2 :: r5 =>
    if e2 = '\\' ∧ u2 = 'u' then
      match hexVal a2, hexVal b2, hexVal g2, hexVal d2 with
      | some wa, some wb, some wg, some wd =>
        if 56320 ≤ ((wa * 16 + wb) * 16 + wg) * 16 + wd ∧
            ((wa * 16 + wb) * 16 + wg) * 16 + wd < 57344 then
          some (((wa * 16 + wb) * 16 + wg) * 16 + wd, r5)
        else none
      | _, _, _, _ => none
    else none
  | _ => none

mutual

/-- String-literal scanner, entered after the opening quote, following
Python's py_scanstring: plain characters are taken as they come, a
backslash hands over to the escape scanner. -/
def pStr : List Char → Option (List Char × List Char)
  | [] => none
  | c :: r =>
    if c = '"' then some ([], r)
    else if c = '\\' then pEsc r
    else
      match pStr r with
      | some (s, rest) => some (c :: s, rest)
      | none => none
termination_by s => 2 * s.length
decreasing_by all_goals simp_wf <;> omega

/-- Escape scanner, entered after a backslash: a u goes to the hex scanner,
anything else through the simple escape table. -/
def pEsc : List Char → Option (List Char × List Char)
  | [] => none
  | e :: r2 =>
    if e = 'u' then pEscHex r2
    else
      match escSimple e with
      | some ec =>
        match pStr r2 with
        | some (s, rest) => some (ec :: s, rest)
        | none => none
      | none => none
termination_by r => 2 * r.length + 1
decreasing_by all_goals simp_wf <;> omega

/-- Four hex digits after a backslash-u. -/
def pEscHex : List Char → Option (List Char × List Char)
  | a :: b :: g :: d :: r3 =>
    match hexVal a, hexVal b, hexVal g, hexVal d with
    | some va, some vb, some vg, some vd =>
      pEscU (((va * 16 + vb) * 16 + vg) * 16 + vd) r3
    | _, _, _, _ => none
  | _ => none
termination_by r => 2 * r.length + 1
decreasing_by all_goals simp_wf <;> omega

/-- Continuation after one backslash-u escape with code unit n: a high
surrogate followed by a backslash-u low surrogate is combined into one
astral code point, anything else takes the code unit as it stands. -/
def pEscU (n : Nat) (r3 : List Char) : Option (List Char × List Char) :=
  if 55296 ≤ n ∧ n < 56320 then
    match _h : isLowSurEsc r3 with
    | some (m, r5) =>
      match pStr r5 with
      | some (s, rest) =>
        some (Char.ofNat (65536 + (n - 55296) * 1024 + (m - 56320)) :: s, rest)
      | none => none
    | none => pLone n r3
  else pLone n r3
termination_by 2 * r3.length + 3
decreasing_by
  all_goals simp_wf
  all_goals
    (have hl : r3.length = r5.length + 6 := by
      unfold isLowSurEsc at _h
      repeat' split at _h
      all_goals simp_all
     omega)

/-- Take the code unit of an unpaired backslash-u escape as one character
(it cannot arise from the encoder; Python would keep the lone surrogate)
and scan on. -/
def pLone (n : Nat) (r3 : List Char) : Option (List Char × List Char) :=
  match pStr r3 with
  | some (s, rest) => some (Char.ofNat n :: s, rest)
  | none => none
termination_by 2 * r3.length + 1
decreasing_by all_goals simp_wf <;> omega

end

mutual

/-- Recursive-descent value scanner mirroring Python's json decoder on the
integer-numbered fragment (the fuel argument only bounds nesting; loads
passes ample fuel).  Dispatch on the first character: string, array, object,
the three literals, or a number.  Number scanning stops at the first
non-digit, so the float forms Python would accept beyond that point are
rejected later as trailing data; no such form is ever produced by dumps. -/
def pVal : Nat → List Char → Option (JVal × List Char)
  | 0, _ => none
  | _ + 1, [] => none
  | fuel + 1, c :: r =>
    if c = '"' then
      match pStr r with
      | some (s, rest) => some (JVal.str s, rest)
      | none => none
    else if c = '[' then
      match skipWs r with
      | [] => none
      | c1 :: r1 =>
        if c1 = ']' then some (JVal.arr [], r1)
        else
          match pVal fuel (c1 :: r1) with
          | some (v, r2) =>
            match pArrTail fuel (skipWs r2) with
            | some (vs, r3) => some (JVal.arr (v :: vs), r3)
            | none => none
          | none => none
    else if c = '\x7b' then
      match skipWs r with
      | [] => none
      | c1 :: r1 =>
        if c1 = '\x7d' then some (JVal.obj [], r1)
        else
          match pMember fuel (c1 :: r1) with
          | some (m, r2) =>
            match pObjTail fuel (skipWs r2) with
            | some (ms, r3) => some (JVal.obj (m :: ms), r3)
            | none => none
          | none => none
    else if c = 't' then
      match r with
      | 'r' :: 'u' :: 'e' :: r2 => some (JVal.bool true, r2)
      | _ => none
    else if c = 'f' then
      match r with
      | 'a' :: 'l' :: 's' :: 'e' :: r2 => some (JVal.bool false, r2)
      | _ => none
    else if c = 'n' then
      match r with
      | 'u' :: 'l' :: 'l' :: r2 => some (JVal.null, r2)
      | _ => none
    else if c = '-' then
      match pNat r with
      | some (n, r2) => some (JVal.num (-(n : Int)), r2)
      | none => none
    else
      match pNat (c :: r) with
      | some (n, r2) => some (JVal.num (n : Int), r2)
      | none => none

/-- After one array element: a closing bracket ends the array, a comma is
followed by the next element. -/
def pArrTail : Nat → List Char → Option (List JVal × List Char)
  | 0, _ => none
  | _ + 1, [] => none
  | fuel + 1, c :: r =>
    if c = ']' then some ([], r)
    else if c = ',' then
      match pVal fuel (skipWs r) with
      | some (v, r2) =>
        match pArrTail fuel (skipWs r2) with
        | some (vs, r3) => some (v :: vs, r3)
        | none => none
      | none => none
    else none

/-- One object member: a string key, a colon, a value. -/
def pMember : Nat → List Char → Option ((List Char × JVal) × List Char)
  | 0, _ => none
  | _ + 1, [] => none
  | fuel + 1, c :: r =>
    if c = '"' then
      match pStr r with
      | some (k, r2) =>
        match skipWs r2 with
        | [] => none
        | c1 :: r3 =>
          if c1 = ':' then
            match pVal fuel (skipWs r3) with
            | some (v, r4) => some ((k, v), r4)
            | none => none
          else none
      | none => none
    else none

/-- After one object member: a closing brace ends the object, a comma is
followed by the next member.  Members are collected in input order; Python
rebuilds a dict, which coincides because a dict never serialises duplicate
keys. -/
def pObjTail : Nat → List Char → Option (List (List Char × JVal) × List Char)
  | 0, _ => none
  | _ + 1, [] => none
  | fuel + 1, c :: r =>
    if c = '\x7d' then some ([], r)
    else if c = ',' then
      match pMember fuel (skipWs r) with
      | some (m, r2) =>
        match pObjTail fuel (skipWs r2) with
        | some (ms, r3) => some (m :: ms, r3)
        | none => none
      | none => none
    else none

end

/-- Embedding of json.loads on the same fragment: skip leading whitespace,
scan one value, require only whitespace to remain (Python raises on extra
data; none models the raise).  The fuel handed to the scanner exceeds the
input length and therefore every possible nesting depth. -/
def loads (s : List Char) : Option JVal :=
  let s1 := skipWs s
  match pVal (s.length + 1) s1 with
  | some (v, r) => if skipWs r = [] then some v else none
  | none => none

/-- Embedding of JSONField.db_value (lines 11-12): serialise with
json.dumps. -/
def JSONField.db_value (v : JVal) : List Char := dumps v

/-- Embedding of JSONField.python_value (lines 14-16): a NULL column value
falls through the if and yields None; otherwise json.loads runs, its
ValueError on malformed text modelled as the error case. -/
def JSONField.python_value : Option (List Char) → Except Unit (Option JVal)
  | none => Except.ok none
  | some t =>
    match loads t with
    | some v => Except.ok (some v)
    | none => Except.error ()

/-- Head-digit test used to state when a number scan cannot leak into the
following input. -/
def startsDigit : List Char → Bool
  | [] => false
  | c :: _ => isDigitC c

/-- Property of the first character of any encoding: not whitespace and
none of the closing or separating delimiters. -/
def goodHead (c : Char) : Bool :=
  !isWsC c && c != ']' && c != '\x7d' && c != ','

/-- Test fixture: a stored user row matching only the first criterion of
critC1. -/
def userC1 : User :=
  { id := 1, fields := [("email", Val.s "a@x"), ("username", Val.s "bob")],
    hasUsablePassword := some true }

/-- Test fixture: two-entry criteria whose first entry alone matches
userC1. -/
def critC1 : List (String × Val) :=
  [("email", Val.s "a@x"), ("username", Val.s "carol")]

/-- Test fixture: a stored user row for the get_user scenario. -/
def userC7 : User :=
  { id := 7, fields := [("email", Val.s "u@y"), ("username", Val.s "dana")],
    hasUsablePassword := some true }

/-- Test fixture: two-entry criteria whose first entry alone matches
userC7. -/
def critC7 : List (String × Val) :=
  [("email", Val.s "u@y"), ("username", Val.s "erin")]

/-- Test fixture: first association value stored for a key. -/
def assnA : AssociationValue :=
  { handle := "h1", secret := [1, 2, 3], issued := "10", lifetime := "60",
    assoc_type := "HMAC-SHA1" }

/-- Test fixture: second association value for the same key with another
secret. -/
def assnB : AssociationValue :=
  { handle := "h1", secret := [9, 9], issued := "11", lifetime := "60",
    assoc_type := "HMAC-SHA1" }

/-- Test fixture: the only stored association row in the remove scenario. -/
def assocRowC8 : AssocRow :=
  { id := 1, server_url := "https://s", handle := "h1", secret := "c2Vj",
    issued := "10", lifetime := "60", assoc_type := "HMAC-SHA1" }

/-- Test fixture: a user with a usable password and no stored
associations. -/
def userPw : User := { id := 3, fields := [], hasUsablePassword := some true }

/-- Test fixture: a user without a usable password. -/
def userNoPw : User := { id := 4, fields := [], hasUsablePassword := some false }

/-- Test fixture: the sole association of userNoPw. -/
def rowC6 : SocialAuthRow :=
  { id := 1, provider := "google", uid := "9", userId := 4, extraData := none }

/-- Test fixture: the user of the create/get round-trip witness. -/
def userC5 : User := { id := 5, fields := [], hasUsablePassword := some true }

/-- Valid Unicode scalar values avoid the surrogate block and the upper
bound; stated on Char.toNat for use in the escape proofs. -/
theorem char_toNat_facts (c : Char) :
    (c.toNat < 55296 ∨ 57343 < c.toNat) ∧ c.toNat < 1114112 := by
  have h := c.valid
  simp only [Char.toNat]
  rcases h with h | h
  · exact ⟨Or.inl h, by omega⟩
  · exact ⟨Or.inr h.1, h.2⟩

/-- Characters differ when their code points differ. -/
theorem char_ne_of_toNat_ne {c d : Char} (h : c.toNat ≠ d.toNat) : c ≠ d :=
  fun he => h (by rw [he])

/-- hexVal inverts hexDigitChar on the hex digit range. -/
theorem hexVal_hexDigitChar (x : Nat) (h : x < 16) :
    hexVal (hexDigitChar x) = some x := by
  interval_cases x <;> decide

/-- digitChar lands in the digit range. -/
theorem isDigitC_digitChar (d : Nat) (h : d < 10) :
    isDigitC (digitChar d) = true := by
  interval_cases d <;> decide

/-- digVal inverts digitChar on the digit range. -/
theorem digVal_digitChar (d : Nat) (h : d < 10) :
    digVal (digitChar d) = d := by
  interval_cases d <;> decide

/-- Every character emitted by natDigs is a digit. -/
theorem natDigs_digits (n : Nat) : ∀ c ∈ natDigs n, isDigitC c = true := by
  induction n using natDigs.induct with
  | case1 n h =>
    intro c hc
    rw [natDigs, dif_pos h] at hc
    simp at hc
    subst hc
    exact isDigitC_digitChar n h
  | case2 n h ih =>
    intro c hc
    rw [natDigs, dif_neg h] at hc
    rcases List.mem_append.mp hc with hc | hc
    · exact ih c hc
    · simp at hc
      subst hc
      exact isDigitC_digitChar _ (Nat.mod_lt _ (by omega))

/-- natDigs emits at least one character, the first being a digit. -/
theorem natDigs_cons (n : Nat) :
    ∃ c cs, natDigs n = c :: cs ∧ isDigitC c = true := by
  induction n using natDigs.induct with
  | case1 n h =>
    exact ⟨digitChar n, [], by rw [natDigs, dif_pos h], isDigitC_digitChar n h⟩
  | case2 n h ih =>
    obtain ⟨c, cs, he, hd⟩ := ih
    exact ⟨c, cs ++ [digitChar (n % 10)], by rw [natDigs, dif_neg h, he]; simp, hd⟩

/-- Appending one digit multiplies the accumulated value by ten. -/
theorem digitsToNat_append (ds : List Char) (c : Char) :
    digitsToNat (ds ++ [c]) = 10 * digitsToNat ds + digVal c := by
  simp [digitsToNat, List.foldl_append]

/-- digitsToNat inverts natDigs. -/
theorem digitsToNat_natDigs (n : Nat) : digitsToNat (natDigs n) = n := by
  induction n using natDigs.induct with
  | case1 n h =>
    rw [natDigs, dif_pos h]
    simpa [digitsToNat] using digVal_digitChar n h
  | case2 n h ih =>
    rw [natDigs, dif_neg h, digitsToNat_append, ih,
      digVal_digitChar _ (Nat.mod_lt _ (by omega))]
    omega

/-- spanDigits splits an all-digit prefix off exactly when the remainder
does not begin with a digit. -/
theorem spanDigits_prefix (ds rest : List Char)
    (hd : ∀ c ∈ ds, isDigitC c = true) (hr : startsDigit rest = false) :
    spanDigits (ds ++ rest) = (ds, rest) := by
  induction ds with
  | nil =>
    cases rest with
    | nil => rfl
    | cons c cs =>
      simp only [startsDigit] at hr
      simp [spanDigits, hr]
  | cons c cs ih =>
    have hc := hd c (by simp)
    simp only [List.cons_append, spanDigits, hc, if_pos, List.append_eq]
    rw [ih (fun x hx => hd x (by simp [hx]))]

/-- pNat inverts natDigs followed by non-digit input. -/
theorem pNat_natDigs (n : Nat) (rest : List Char)
    (hr : startsDigit rest = false) :
    pNat (natDigs n ++ rest) = some (n, rest) := by
  obtain ⟨c, cs, he, _hd⟩ := natDigs_cons n
  rw [pNat, spanDigits_prefix _ _ (natDigs_digits n) hr, he]
  simp only []
  rw [← he, digitsToNat_natDigs]

/-- skipWs is the identity on input that does not start with whitespace. -/
theorem skipWs_not_ws (c : Char) (cs : List Char) (h : isWsC c = false) :
    skipWs (c :: cs) = c :: cs := by simp [skipWs, h]

/-- skipWs drops one leading space. -/
theorem skipWs_space (cs : List Char) : skipWs (' ' :: cs) = skipWs cs := by
  simp [skipWs, isWsC]

/-- Shape of a string literal followed by further input. -/
theorem encStr_append (s Y : List Char) :
    encStr s ++ Y = '"' :: (escBody s ++ '"' :: Y) := by simp [encStr]

/-- pStr stops at an unescaped quote. -/
theorem pStr_quote (r : List Char) : pStr ('"' :: r) = some ([], r) := by
  simp [pStr]

/-- pStr takes a plain character and scans on. -/
theorem pStr_plain (c : Char) (r : List Char) (h1 : c ≠ '"') (h2 : c ≠ '\\') :
    pStr (c :: r) =
      match pStr r with
      | some (s, rest) => some (c :: s, rest)
      | none => none := by
  simp [pStr, h1, h2]

/-- pStr hands a backslash to the escape scanner. -/
theorem pStr_backslash (r : List Char) : pStr ('\\' :: r) = pEsc r := by
  simp [pStr]

/-- A u escape goes to the hex scanner. -/
theorem pEsc_u (r : List Char) : pEsc ('u' :: r) = pEscHex r := by
  simp [pEsc]

/-- The hex scanner reads four hex digits. -/
theorem pEscHex_digits (a b g d : Char) (r : List Char) (va vb vg vd : Nat)
    (ha : hexVal a = some va) (hb : hexVal b = some vb)
    (hg : hexVal g = some vg) (hd : hexVal d = some vd) :
    pEscHex (a :: b :: g :: d :: r) =
      pEscU (((va * 16 + vb) * 16 + vg) * 16 + vd) r := by
  simp [pEscHex, ha, hb, hg, hd]

/-- Outside the high surrogate range the code unit is taken as it stands. -/
theorem pEscU_plain (n : Nat) (r : List Char) (h : ¬(55296 ≤ n ∧ n < 56320)) :
    pEscU n r = pLone n r := by
  simp [pEscU, h]

/-- A high surrogate followed by a low surrogate escape combines into one
astral code point. -/
theorem pEscU_pair (n : Nat) (r : List Char) (hn1 : 55296 ≤ n) (hn2 : n < 56320)
    (m : Nat) (r5 : List Char) (hlow : isLowSurEsc r = some (m, r5)) :
    pEscU n r =
      match pStr r5 with
      | some (s, rest) =>
        some (Char.ofNat (65536 + (n - 55296) * 1024 + (m - 56320)) :: s, rest)
      | none => none := by
  rw [pEscU, if_pos ⟨hn1, hn2⟩]
  split
  · rename_i m2 r52 heq
    rw [hlow] at heq
    cases heq
    rfl
  · rename_i heq
    rw [hlow] at heq
    simp at heq

/-- pLone takes the code unit as one character and scans on. -/
theorem pLone_eq (n : Nat) (r : List Char) :
    pLone n r =
      match pStr r with
      | some (s, rest) => some (Char.ofNat n :: s, rest)
      | none => none := by
  simp [pLone]

/-- Recomposition of a value below 65536 from its four hex digits. -/
theorem hex_recompose (n : Nat) (h : n < 65536) :
    ((n / 4096 % 16 * 16 + n / 256 % 16) * 16 + n / 16 % 16) * 16 + n % 16 = n := by
  omega

/-- The lookahead recognises an emitted low-surrogate escape. -/
theorem isLowSurEsc_uEsc (m : Nat) (X : List Char) (h1 : 56320 ≤ m)
    (h2 : m < 57344) : isLowSurEsc (uEsc m ++ X) = some (m, X) := by
  have hrec := hex_recompose m (by omega)
  simp only [uEsc, hex4, List.cons_append]
  simp [isLowSurEsc,
    hexVal_hexDigitChar (m / 4096 % 16) (by omega),
    hexVal_hexDigitChar (m / 256 % 16) (by omega),
    hexVal_hexDigitChar (m / 16 % 16) (by omega),
    hexVal_hexDigitChar (m % 16) (by omega), hrec, h1, h2]

/-- The string scanner inverts the encoder's escaping up to the closing
quote, leaving the rest of the input untouched. -/
theorem pStr_escBody (s rest : List Char) :
    pStr (escBody s ++ '"' :: rest) = some (s, rest) := by
  induction s with
  | nil => simp [escBody, pStr]
  | cons c cs ih =>
    simp only [escBody, List.append_assoc]
    by_cases h1 : c = '"'
    · subst h1; simp [escChar, pStr_backslash, pEsc, escSimple, ih]
    · by_cases h2 : c = '\\'
      · subst h2; simp [escChar, pStr_backslash, pEsc, escSimple, ih]
      · by_cases h3 : c = '\x08'
        · subst h3; simp [escChar, pStr_backslash, pEsc, escSimple, ih]
        · by_cases h4 : c = '\x0c'
          · subst h4; simp [escChar, pStr_backslash, pEsc, escSimple, ih]
          · by_cases h5 : c = '\n'
            · subst h5; simp [escChar, pStr_backslash, pEsc, escSimple, ih]
            · by_cases h6 : c = '\r'
              · subst h6; simp [escChar, pStr_backslash, pEsc, escSimple, ih]
              · by_cases h7 : c = '\t'
                · subst h7; simp [escChar, pStr_backslash, pEsc, escSimple, ih]
                · by_cases h8 : c.toNat < 32 ∨ 126 < c.toNat
                  · by_cases h9 : c.toNat < 65536
                    · -- one backslash-u escape for a BMP code point
                      have hval := char_toNat_facts c
                      have hesc : escChar c = uEsc c.toNat := by
                        simp [escChar, h1, h2, h3, h4, h5, h6, h7, h8, h9]
                      have hrec := hex_recompose c.toNat (by omega)
                      have hshape : uEsc c.toNat ++ (escBody cs ++ '"' :: rest) =
                          '\\' :: 'u' :: hexDigitChar (c.toNat / 4096 % 16) ::
                          hexDigitChar (c.toNat / 256 % 16) ::
                          hexDigitChar (c.toNat / 16 % 16) ::
                          hexDigitChar (c.toNat % 16) ::
                          (escBody cs ++ '"' :: rest) := by simp [uEsc, hex4]
                      rw [hesc, hshape, pStr_backslash, pEsc_u,
                        pEscHex_digits _ _ _ _ _ _ _ _ _
                          (hexVal_hexDigitChar (c.toNat / 4096 % 16) (by omega))
                          (hexVal_hexDigitChar (c.toNat / 256 % 16) (by omega))
                          (hexVal_hexDigitChar (c.toNat / 16 % 16) (by omega))
                          (hexVal_hexDigitChar (c.toNat % 16) (by omega)),
                        hrec, pEscU_plain _ _ (by omega), pLone_eq, ih,
                        Char.ofNat_toNat]
                    · -- surrogate pair for an astral code point
                      have hval := char_toNat_facts c
                      set hi := 55296 + (c.toNat - 65536) / 1024 with hhidef
                      set lo := 56320 + (c.toNat - 65536) % 1024 with hlodef
                      have hesc : escChar c = uEsc hi ++ uEsc lo := by
                        simp [escChar, h1, h2, h3, h4, h5, h6, h7, h8, h9]
                      have hhiB : hi < 65536 := by omega
                      have hrec := hex_recompose hi hhiB
                      have hcomb : 65536 + (hi - 55296) * 1024 + (lo - 56320) = c.toNat := by
                        omega
                      have hshape : uEsc hi ++ (uEsc lo ++ (escBody cs ++ '"' :: rest)) =
                          '\\' :: 'u' :: hexDigitChar (hi / 4096 % 16) ::
                          hexDigitChar (hi / 256 % 16) ::
                          hexDigitChar (hi / 16 % 16) ::
                          hexDigitChar (hi % 16) ::
                          (uEsc lo ++ (escBody cs ++ '"' :: rest)) := by simp [uEsc, hex4]
                      rw [hesc, List.append_assoc, hshape, pStr_backslash, pEsc_u,
                        pEscHex_digits _ _ _ _ _ _ _ _ _
                          (hexVal_hexDigitChar (hi / 4096 % 16) (by omega))
                          (hexVal_hexDigitChar (hi / 256 % 16) (by omega))
                          (hexVal_hexDigitChar (hi / 16 % 16) (by omega))
                          (hexVal_hexDigitChar (hi % 16) (by omega)),
                        hrec,
                        pEscU_pair _ _ (by omega) (by omega) _ _
                          (isLowSurEsc_uEsc lo _ (by omega) (by omega)),
                        ih, hcomb, Char.ofNat_toNat]
                  · -- printable ASCII other than quote and backslash
                    have hesc : escChar c = [c] := by
                      simp [escChar, h1, h2, h3, h4, h5, h6, h7, h8]
                    rw [hesc]
                    simp only [List.cons_append, List.nil_append]
                    rw [pStr_plain c _ h1 h2, ih]

/-- Digit characters lie between codes 48 and 57. -/
theorem digitC_bounds (c : Char) (h : isDigitC c = true) :
    48 ≤ c.toNat ∧ c.toNat ≤ 57 := by
  simpa [isDigitC] using h

/-- A digit head is not whitespace and differs from every structural
character of the grammar. -/
theorem digit_head_facts (c : Char) (h : isDigitC c = true) :
    goodHead c = true ∧ c ≠ '"' ∧ c ≠ '[' ∧ c ≠ '\x7b' ∧ c ≠ 't' ∧ c ≠ 'f' ∧
    c ≠ 'n' ∧ c ≠ '-' := by
  have hb := digitC_bounds c h
  have k : ∀ d : Char, d.toNat < 48 ∨ 57 < d.toNat → c ≠ d :=
    fun d hd => char_ne_of_toNat_ne (by omega)
  have hws : isWsC c = false := by
    simp [isWsC, k ' ' (by decide), k '\t' (by decide), k '\n' (by decide),
      k '\r' (by decide)]
  refine ⟨by simp [goodHead, hws, k ']' (by decide), k '\x7d' (by decide),
    k ',' (by decide)], k '"' (by decide), k '[' (by decide),
    k '\x7b' (by decide), k 't' (by decide), k 'f' (by decide),
    k 'n' (by decide), k '-' (by decide)⟩

/-- Unpacking of the head property. -/
theorem goodHead_spec (c : Char) (h : goodHead c = true) :
    isWsC c = false ∧ c ≠ ']' ∧ c ≠ '\x7d' ∧ c ≠ ',' := by
  simp only [goodHead, Bool.and_eq_true, Bool.not_eq_true', bne_iff_ne] at h
  exact ⟨h.1.1.1, h.1.1.2, h.1.2, h.2⟩

/-- Every encoding begins with a non-whitespace character distinct from the
closing and separating delimiters. -/
theorem dumps_head (v : JVal) :
    ∃ c cs, dumps v = c :: cs ∧ goodHead c = true := by
  cases v with
  | null => exact ⟨'n', ['u', 'l', 'l'], by simp [dumps], by decide⟩
  | bool b =>
    cases b with
    | true => exact ⟨'t', ['r', 'u', 'e'], by simp [dumps], by decide⟩
    | false => exact ⟨'f', ['a', 'l', 's', 'e'], by simp [dumps], by decide⟩
  | num i =>
    rw [show dumps (JVal.num i) = intDigs i from by simp [dumps]]
    by_cases hi : i < 0
    · exact ⟨'-', natDigs i.natAbs, by rw [intDigs, if_pos hi], by decide⟩
    · obtain ⟨c, cs, he, hd⟩ := natDigs_cons i.natAbs
      exact ⟨c, cs, by rw [intDigs, if_neg hi, he], (digit_head_facts c hd).1⟩
  | str s => exact ⟨'"', escBody s ++ ['"'], by simp [dumps, encStr], by decide⟩
  | arr l =>
    cases l with
    | nil => exact ⟨'[', [']'], by simp [dumps], by decide⟩
    | cons e es =>
      exact ⟨'[', (dumps e ++ dumpsArrRest es) ++ [']'], by simp [dumps],
        by decide⟩
  | obj l =>
    cases l with
    | nil => exact ⟨'\x7b', ['\x7d'], by simp [dumps], by decide⟩
    | cons m ms =>
      exact ⟨'\x7b', (dumpsMember m ++ dumpsObjRest ms) ++ ['\x7d'],
        by simp [dumps], by decide⟩

/-- Encodings are never empty. -/
theorem dumps_length_pos (v : JVal) : 1 ≤ (dumps v).length := by
  obtain ⟨c, cs, he, _⟩ := dumps_head v
  rw [he]
  simp

/-- skipWs leaves an encoding and anything after it untouched. -/
theorem skipWs_dumps (v : JVal) (Z : List Char) :
    skipWs (dumps v ++ Z) = dumps v ++ Z := by
  obtain ⟨c, cs, he, hg⟩ := dumps_head v
  rw [he, List.cons_append, skipWs_not_ws _ _ (goodHead_spec c hg).1]

/-- Remaining array elements followed by the closing bracket never begin
with a digit. -/
theorem startsDigit_arrRest (l : List JVal) (rest : List Char) :
    startsDigit (dumpsArrRest l ++ ']' :: rest) = false := by
  cases l with
  | nil => simp [dumpsArrRest, startsDigit]; decide
  | cons e es => simp [dumpsArrRest, startsDigit]; decide

/-- Remaining object members followed by the closing brace never begin with
a digit. -/
theorem startsDigit_objRest (ms : List (List Char × JVal)) (rest : List Char) :
    startsDigit (dumpsObjRest ms ++ '\x7d' :: rest) = false := by
  cases ms with
  | nil => simp [dumpsObjRest, startsDigit]; decide
  | cons m ms2 => simp [dumpsObjRest, startsDigit]; decide

/-- skipWs leaves remaining array elements untouched. -/
theorem skipWs_arrRest (l : List JVal) (rest : List Char) :
    skipWs (dumpsArrRest l ++ ']' :: rest) = dumpsArrRest l ++ ']' :: rest := by
  cases l with
  | nil => simp [dumpsArrRest]; exact skipWs_not_ws _ _ (by decide)
  | cons e es =>
    simp [dumpsArrRest]
    exact skipWs_not_ws _ _ (by decide)

/-- skipWs leaves remaining object members untouched. -/
theorem skipWs_objRest (ms : List (List Char × JVal)) (rest : List Char) :
    skipWs (dumpsObjRest ms ++ '\x7d' :: rest) =
      dumpsObjRest ms ++ '\x7d' :: rest := by
  cases ms with
  | nil => simp [dumpsObjRest]; exact skipWs_not_ws _ _ (by decide)
  | cons m ms2 =>
    simp [dumpsObjRest]
    exact skipWs_not_ws _ _ (by decide)

/-- Shape of one encoded member followed by further input. -/
theorem dumpsMember_shape (k : List Char) (v : JVal) (Y : List Char) :
    dumpsMember (k, v) ++ Y =
      '"' :: (escBody k ++ '"' :: (':' :: ' ' :: (dumps v ++ Y))) := by
  simp [dumpsMember, encStr, List.append_assoc]

/-- A member list literal is at least two characters long. -/
theorem dumpsMember_length (k : List Char) (v : JVal) :
    2 ≤ (dumpsMember (k, v)).length := by
  have h := dumps_length_pos v
  simp [dumpsMember, encStr]
  omega

/-- Shape of a nonempty encoded array followed by further input. -/
theorem dumps_arr_cons_shape (e : JVal) (es : List JVal) (rest : List Char) :
    dumps (JVal.arr (e :: es)) ++ rest =
      '[' :: (dumps e ++ (dumpsArrRest es ++ ']' :: rest)) := by
  simp [dumps, List.append_assoc]

/-- Shape of a nonempty encoded object followed by further input. -/
theorem dumps_obj_cons_shape (m : List Char × JVal)
    (ms : List (List Char × JVal)) (rest : List Char) :
    dumps (JVal.obj (m :: ms)) ++ rest =
      '\x7b' :: (dumpsMember m ++ (dumpsObjRest ms ++ '\x7d' :: rest)) := by
  simp [dumps, List.append_assoc]

/-- The value scanner accepts the null literal. -/
theorem pVal_null (f : Nat) (rest : List Char) :
    pVal (f + 1) (dumps JVal.null ++ rest) = some (JVal.null, rest) := by
  simp [dumps, pVal]

/-- The value scanner accepts the boolean literals. -/
theorem pVal_bool (f : Nat) (b : Bool) (rest : List Char) :
    pVal (f + 1) (dumps (JVal.bool b) ++ rest) = some (JVal.bool b, rest) := by
  cases b with
  | true => simp [dumps, pVal]
  | false => simp [dumps, pVal]

/-- The value scanner accepts an encoded string literal. -/
theorem pVal_str (f : Nat) (s rest : List Char) :
    pVal (f + 1) (dumps (JVal.str s) ++ rest) = some (JVal.str s, rest) := by
  rw [show dumps (JVal.str s) = encStr s from by simp [dumps], encStr_append]
  simp [pVal, pStr_escBody]

/-- The value scanner accepts an encoded integer when the following input
does not begin with a digit. -/
theorem pVal_num (f : Nat) (i : Int) (rest : List Char)
    (hr : startsDigit rest = false) :
    pVal (f + 1) (dumps (JVal.num i) ++ rest) = some (JVal.num i, rest) := by
  rw [show dumps (JVal.num i) = intDigs i from by simp [dumps]]
  by_cases hi : i < 0
  · rw [intDigs, if_pos hi, List.cons_append]
    simp [pVal]
    rw [pNat_natDigs _ _ hr]
    have hcast : ((i.natAbs : Int)) = -i := Int.ofNat_natAbs_of_nonpos (by omega)
    simp [hcast]
  · rw [intDigs, if_neg hi]
    obtain ⟨c, cs, he, hd⟩ := natDigs_cons i.natAbs
    obtain ⟨_hg, hq, hlb, hob, ht, hfc, hnc, hmc⟩ := digit_head_facts c hd
    rw [he, List.cons_append]
    simp [pVal, hq, hlb, hob, ht, hfc, hnc, hmc]
    rw [← List.cons_append, ← he, pNat_natDigs _ _ hr]
    have hcast : ((i.natAbs : Int)) = i := Int.natAbs_of_nonneg (by omega)
    simp [hcast]

/-- The value scanner accepts the empty array. -/
theorem pVal_arr_nil (f : Nat) (rest : List Char) :
    pVal (f + 1) (dumps (JVal.arr []) ++ rest) = some (JVal.arr [], rest) := by
  simp [dumps, pVal, skipWs_not_ws ']' rest (by decide)]

/-- The value scanner accepts the empty object. -/
theorem pVal_obj_nil (f : Nat) (rest : List Char) :
    pVal (f + 1) (dumps (JVal.obj []) ++ rest) = some (JVal.obj [], rest) := by
  simp [dumps, pVal, skipWs_not_ws '\x7d' rest (by decide)]

/-- One scanner step on a nonempty array: scan the first element, then the
element tail. -/
theorem pVal_bracket (f : Nat) (e : JVal) (Z : List Char) :
    pVal (f + 1) ('[' :: (dumps e ++ Z)) =
      match pVal f (dumps e ++ Z) with
      | some (v2, r2) =>
        match pArrTail f (skipWs r2) with
        | some (vs, r3) => some (JVal.arr (v2 :: vs), r3)
        | none => none
      | none => none := by
  obtain ⟨c0, cs0, he0, hg0⟩ := dumps_head e
  obtain ⟨hws0, hbr, _hcb, _hcm⟩ := goodHead_spec c0 hg0
  rw [he0, List.cons_append]
  simp [pVal, skipWs_not_ws _ _ hws0, hbr]

/-- One scanner step on a nonempty object: scan the first member, then the
member tail. -/
theorem pVal_brace (f : Nat) (k : List Char) (v : JVal) (Z : List Char) :
    pVal (f + 1) ('\x7b' :: (dumpsMember (k, v) ++ Z)) =
      match pMember f (dumpsMember (k, v) ++ Z) with
      | some (m2, r2) =>
        match pObjTail f (skipWs r2) with
        | some (ms, r3) => some (JVal.obj (m2 :: ms), r3)
        | none => none
      | none => none := by
  rw [dumpsMember_shape]
  simp [pVal, skipWs_not_ws '"' _ (by decide)]

/-- The element tail scanner accepts the closing bracket. -/
theorem pArrTail_nil (f : Nat) (rest : List Char) :
    pArrTail (f + 1) (']' :: rest) = some ([], rest) := by
  simp [pArrTail]

/-- One element tail step: comma, space, next element. -/
theorem pArrTail_cons (f : Nat) (e : JVal) (Z : List Char) :
    pArrTail (f + 1) (',' :: ' ' :: (dumps e ++ Z)) =
      match pVal f (dumps e ++ Z) with
      | some (v2, r2) =>
        match pArrTail f (skipWs r2) with
        | some (vs, r3) => some (v2 :: vs, r3)
        | none => none
      | none => none := by
  simp [pArrTail, skipWs_space, skipWs_dumps]

/-- The member scanner reads key, colon, space, value. -/
theorem pMember_step (f : Nat) (k : List Char) (v : JVal) (rest : List Char) :
    pMember (f + 1) (dumpsMember (k, v) ++ rest) =
      match pVal f (dumps v ++ rest) with
      | some (v2, r4) => some ((k, v2), r4)
      | none => none := by
  rw [dumpsMember_shape]
  simp [pMember, pStr_escBody, skipWs_not_ws ':' _ (by decide), skipWs_space,
    skipWs_dumps]

/-- The member tail scanner accepts the closing brace. -/
theorem pObjTail_nil (f : Nat) (rest : List Char) :
    pObjTail (f + 1) ('\x7d' :: rest) = some ([], rest) := by
  simp [pObjTail]

/-- One member tail step: comma, space, next member. -/
theorem pObjTail_cons (f : Nat) (k : List Char) (v : JVal) (Z : List Char) :
    pObjTail (f + 1) (',' :: ' ' :: (dumpsMember (k, v) ++ Z)) =
      match pMember f (dumpsMember (k, v) ++ Z) with
      | some (m2, r2) =>
        match pObjTail f (skipWs r2) with
        | some (ms, r3) => some (m2 :: ms, r3)
        | none => none
      | none => none := by
  have hsk : skipWs (' ' :: (dumpsMember (k, v) ++ Z)) = dumpsMember (k, v) ++ Z := by
    rw [skipWs_space, dumpsMember_shape, skipWs_not_ws '"' _ (by decide)]
  simp [pObjTail, hsk]

/-- String literals are at least two characters long. -/
theorem encStr_length_ge (k : List Char) : 2 ≤ (encStr k).length := by
  simp [encStr]

/-- Length decomposition of one encoded member. -/
theorem dumpsMember_length_decomp (k : List Char) (v : JVal) :
    (dumpsMember (k, v)).length =
      (encStr k).length + 2 + (dumps v).length := by
  simp [dumpsMember]
  omega

/-- The scanners invert the encoder: with fuel exceeding the input length,
pVal reads back exactly the encoded value, pArrTail the remaining elements
up to the closing bracket, pMember one member, and pObjTail the remaining
members up to the closing brace. -/
theorem parse_dumps (fuel : Nat) :
    (∀ v rest, (dumps v ++ rest).length < fuel → startsDigit rest = false →
      pVal fuel (dumps v ++ rest) = some (v, rest)) ∧
    (∀ l rest, (dumpsArrRest l ++ ']' :: rest).length < fuel →
      pArrTail fuel (dumpsArrRest l ++ ']' :: rest) = some (l, rest)) ∧
    (∀ k v rest, (dumpsMember (k, v) ++ rest).length < fuel →
      startsDigit rest = false →
      pMember fuel (dumpsMember (k, v) ++ rest) = some ((k, v), rest)) ∧
    (∀ ms rest, (dumpsObjRest ms ++ '\x7d' :: rest).length < fuel →
      pObjTail fuel (dumpsObjRest ms ++ '\x7d' :: rest) = some (ms, rest)) := by
  induction fuel using Nat.strong_induction_on with
  | _ fuel IH =>
  cases fuel with
  | zero =>
    refine ⟨?_, ?_, ?_, ?_⟩ <;> (intros; omega)
  | succ f =>
    obtain ⟨IHA, IHB, IHC, IHD⟩ := IH f (Nat.lt_succ_self f)
    refine ⟨?_, ?_, ?_, ?_⟩
    · intro v rest hlen hrest
      cases v with
      | null => exact pVal_null f rest
      | bool b => exact pVal_bool f b rest
      | num i => exact pVal_num f i rest hrest
      | str s => exact pVal_str f s rest
      | arr l =>
        cases l with
        | nil => exact pVal_arr_nil f rest
        | cons e es =>
          rw [dumps_arr_cons_shape] at hlen ⊢
          have hle : (dumps e ++ (dumpsArrRest es ++ ']' :: rest)).length < f := by
            simp only [List.length_append, List.length_cons] at hlen ⊢
            omega
          have hlb : (dumpsArrRest es ++ ']' :: rest).length < f := by
            have hd := dumps_length_pos e
            simp only [List.length_append, List.length_cons] at hlen ⊢
            omega
          rw [pVal_bracket, IHA e _ hle (startsDigit_arrRest es rest)]
          simp [skipWs_arrRest, IHB es rest hlb]
      | obj l =>
        cases l with
        | nil => exact pVal_obj_nil f rest
        | cons m ms =>
          obtain ⟨k, v2⟩ := m
          rw [dumps_obj_cons_shape] at hlen ⊢
          have hle : (dumpsMember (k, v2) ++
              (dumpsObjRest ms ++ '\x7d' :: rest)).length < f := by
            simp only [List.length_append, List.length_cons] at hlen ⊢
            omega
          have hlb : (dumpsObjRest ms ++ '\x7d' :: rest).length < f := by
            have hd := dumpsMember_length k v2
            simp only [List.length_append, List.length_cons] at hlen ⊢
            omega
          rw [pVal_brace, IHC k v2 _ hle (startsDigit_objRest ms rest)]
          simp [skipWs_objRest, IHD ms rest hlb]
    · intro l rest hlen
      cases l with
      | nil =>
        rw [show dumpsArrRest ([] : List JVal) ++ ']' :: rest = ']' :: rest
          from by simp [dumpsArrRest]]
        exact pArrTail_nil f rest
      | cons e es =>
        rw [show dumpsArrRest (e :: es) ++ ']' :: rest =
            ',' :: ' ' :: (dumps e ++ (dumpsArrRest es ++ ']' :: rest)) from by
          simp [dumpsArrRest, List.append_assoc]] at hlen ⊢
        have hle : (dumps e ++ (dumpsArrRest es ++ ']' :: rest)).length < f := by
          simp only [List.length_append, List.length_cons] at hlen ⊢
          omega
        have hlb : (dumpsArrRest es ++ ']' :: rest).length < f := by
          have hd := dumps_length_pos e
          simp only [List.length_append, List.length_cons] at hlen ⊢
          omega
        rw [pArrTail_cons, IHA e _ hle (startsDigit_arrRest es rest)]
        simp [skipWs_arrRest, IHB es rest hlb]
    · intro k v rest hlen hrest
      have hle : (dumps v ++ rest).length < f := by
        have hd := dumpsMember_length_decomp k v
        have he := encStr_length_ge k
        simp only [List.length_append, List.length_cons] at hlen ⊢
        omega
      rw [pMember_step, IHA v rest hle hrest]
    · intro ms rest hlen
      cases ms with
      | nil =>
        rw [show dumpsObjRest ([] : List (List Char × JVal)) ++ '\x7d' :: rest =
            '\x7d' :: rest from by simp [dumpsObjRest]]
        exact pObjTail_nil f rest
      | cons m ms2 =>
        obtain ⟨k, v2⟩ := m
        rw [show dumpsObjRest ((k, v2) :: ms2) ++ '\x7d' :: rest =
            ',' :: ' ' :: (dumpsMember (k, v2) ++
              (dumpsObjRest ms2 ++ '\x7d' :: rest)) from by
          simp [dumpsObjRest, List.append_assoc]] at hlen ⊢
        have hle : (dumpsMember (k, v2) ++
            (dumpsObjRest ms2 ++ '\x7d' :: rest)).length < f := by
          simp only [List.length_append, List.length_cons] at hlen ⊢
          omega
        have hlb : (dumpsObjRest ms2 ++ '\x7d' :: rest).length < f := by
          have hd := dumpsMember_length k v2
          simp only [List.length_append, List.length_cons] at hlen ⊢
          omega
        rw [pObjTail_cons, IHC k v2 _ hle (startsDigit_objRest ms2 rest)]
        simp [skipWs_objRest, IHD ms2 rest hlb]

/-- The decoder inverts the encoder. -/
theorem loads_dumps (v : JVal) : loads (dumps v) = some v := by
  have hA := (parse_dumps ((dumps v).length + 1)).1 v []
    (by simp) (by simp [startsDigit])
  simp only [List.append_nil] at hA
  rw [loads]
  rw [show skipWs (dumps v) = dumps v from by simpa using skipWs_dumps v []]
  rw [hA]
  simp [skipWs]

/-- C1: the spec prescribes that the predicate builder AND-combines all
entries of the criteria mapping, so user_exists must answer false when a
stored row matches only the first entry.  The source returns inside the for
loop and keeps only the first entry: on the store holding exactly userC1
and the two-entry criteria critC1, user_exists answers true although no
stored row satisfies every pair, and the builder output visibly drops the
second entry.  This certifies the divergence of the code from the claim. -/
theorem claim_C1_builder_drops_later_fields :
    PeeweeUserMixin.user_exists [userC1] critC1 = true ∧
    satisfiesAll (rowOf userC1) critC1 = false ∧
    get_query_by_dict_param critC1 =
      some (Query.and Query.tt (Query.eq "email" (Val.s "a@x"))) :=
  ⟨rfl, rfl, rfl⟩

/-- C2: the claim prescribes an idempotent get-or-create; the source passes
the three equality expressions positionally to peewee's keyword-only
Model.get_or_create, so even the first call raises TypeError and no Nonce
row is ever read or inserted. -/
theorem claim_C2_use_type_error :
    PeeweeNonceMixin.use ⟨[], 0⟩ "https://srv" "1300000000" "salt" =
      Except.error PyErr.typeError := rfl

/-- C3: the claim prescribes an upsert keyed on (server_url, handle); the
source's own get classmethod shadows peewee's Model.get, returns a query
object and never raises DoesNotExist, so store raises AttributeError on
assoc.save() and persists nothing: after two calls with different secrets
the table still holds no row for the key, instead of exactly one with the
latest secret. -/
theorem claim_C3_store_never_persists :
    (PeeweeAssociationMixin.store [] "https://srv" assnA).1 =
      Except.error PyErr.attributeError ∧
    (PeeweeAssociationMixin.store
        (PeeweeAssociationMixin.store [] "https://srv" assnA).2
        "https://srv" assnB).1 = Except.error PyErr.attributeError ∧
    ((PeeweeAssociationMixin.store
        (PeeweeAssociationMixin.store [] "https://srv" assnA).2
        "https://srv" assnB).2.filter
      (fun r => r.server_url == "https://srv" && r.handle == assnA.handle)).length = 0 :=
  ⟨rfl, rfl, rfl⟩

/-- C4: the Opaque-Blob Codec round-trips every JSON-representable value of
the embedded domain, decode (encode v) = v, and decode of a null/absent
stored text is null. -/
theorem claim_C4_codec_round_trip :
    (∀ v : JVal, JSONField.python_value (some (JSONField.db_value v)) =
      Except.ok (some v)) ∧
    JSONField.python_value none = Except.ok none := by
  refine ⟨fun v => ?_, rfl⟩
  simp [JSONField.python_value, JSONField.db_value, loads_dumps]

/-- C5: when no stored row already carries (provider, str uid),
create_social_auth followed by get_social_auth with the same provider and
uid returns exactly the created association, whose stored uid is the text
coercion of the given uid. -/
theorem claim_C5_social_auth_round_trip (st : SocialAuthState) (user : User)
    (uid : Uid) (provider : String)
    (h : ∀ r ∈ st.rows, ¬(r.provider = provider ∧ r.uid = uidToStr uid)) :
    PeeweeUserMixin.get_social_auth
        (PeeweeUserMixin.create_social_auth st user uid provider).2 provider uid =
      some (PeeweeUserMixin.create_social_auth st user uid provider).1 ∧
    (PeeweeUserMixin.create_social_auth st user uid provider).1.uid =
      uidToStr uid := by
  constructor
  · have hnil : st.rows.filter
        (fun r => r.provider == provider && r.uid == uidToStr uid) = [] :=
      List.filter_eq_nil_iff.mpr (fun r hr => by
        have hc := h r hr
        simp only [Bool.and_eq_true, beq_iff_eq]
        tauto)
    simp [PeeweeUserMixin.get_social_auth, PeeweeUserMixin.create_social_auth,
      List.filter_append, hnil]
  · rfl

/-- C5 witness: the round-trip theorem applied to the empty store, the
integer uid 123 and provider google; the stored uid is the text "123". -/
theorem claim_C5_witness :
    PeeweeUserMixin.get_social_auth
        (PeeweeUserMixin.create_social_auth ⟨[], 1⟩ userC5 (Uid.i 123) "google").2
        "google" (Uid.i 123) =
      some (PeeweeUserMixin.create_social_auth ⟨[], 1⟩ userC5 (Uid.i 123) "google").1 ∧
    (PeeweeUserMixin.create_social_auth ⟨[], 1⟩ userC5 (Uid.i 123) "google").1.uid =
      "123" := by
  have h := claim_C5_social_auth_round_trip ⟨[], 1⟩ userC5 (Uid.i 123) "google"
    (by simp)
  exact ⟨h.1, h.2.trans (by decide)⟩

/-- C6: allowed_to_disconnect answers true exactly when the user passes the
usable-password test or some stored association of that user survives the
exclusion (by association id when given, else by backend name); in
particular a password-holding user with no other association gets true and
a password-less user whose only association is the one being disconnected
gets false. -/
theorem claim_C6_allowed_to_disconnect_iff :
    (∀ (st : SocialAuthState) (u : User) (b : String) (aid : Option Nat),
      PeeweeUserMixin.allowed_to_disconnect st u b aid = true ↔
        (userValidPassword u = true ∨
          ∃ r ∈ st.rows, disconnectExcluded aid b r = true ∧ r.userId = u.id)) ∧
    PeeweeUserMixin.allowed_to_disconnect ⟨[], 0⟩ userPw "google" none = true ∧
    PeeweeUserMixin.allowed_to_disconnect ⟨[rowC6], 2⟩ userNoPw "google"
      (some 1) = false := by
  refine ⟨?_, rfl, rfl⟩
  intro st u b aid
  unfold PeeweeUserMixin.allowed_to_disconnect
  simp only [Bool.or_eq_true, decide_eq_true_eq]
  constructor
  · rintro (h | h)
    · exact Or.inl h
    · right
      obtain ⟨r, hr⟩ := List.exists_mem_of_length_pos h
      have hm := List.mem_filter.mp hr
      refine ⟨r, hm.1, ?_, ?_⟩
      · have := hm.2
        simp only [Bool.and_eq_true] at this
        exact this.1
      · have := hm.2
        simp only [Bool.and_eq_true, beq_iff_eq] at this
        exact this.2
  · rintro (h | ⟨r, hr, hq, hu⟩)
    · exact Or.inl h
    · right
      exact List.length_pos_of_mem
        (List.mem_filter.mpr ⟨hr, by simp [hq, hu]⟩)

/-- C7: the spec prescribes null, never an exception, whenever no stored row
matches the lookup key.  get_code, load and get_social_auth honour that, but
get_user goes through the defective predicate builder: with the store
holding exactly userC7 and the two-entry criteria critC7, no stored row
matches the full key, yet get_user returns userC7 instead of null because
only the first criterion was applied.  This certifies the divergence of the
code from the claim. -/
theorem claim_C7_get_user_nonmatching :
    PeeweeUserMixin.get_user [userC7] none critC7 = some userC7 ∧
    satisfiesAll (rowOf userC7) critC7 = false ∧
    PeeweeCodeMixin.get_code [] "x" = none ∧
    PeeweePartialMixin.load [] "tok" = none ∧
    PeeweeUserMixin.get_social_auth ⟨[], 0⟩ "google" (Uid.s "1") = none :=
  ⟨rfl, rfl, rfl, rfl, rfl⟩

/-- C8: the claim prescribes that remove deletes the listed rows and ignores
absent ids silently; the source calls .delete() on a SelectQuery, a method
peewee select queries do not have, so the call raises AttributeError and the
stored row with id 1 survives. -/
theorem claim_C8_remove_deletes_nothing :
    PeeweeAssociationMixin.remove [assocRowC8] [1, 2] =
      (Except.error PyErr.attributeError, [assocRowC8]) := rfl

/-- C9: the predicate builder applied to an empty mapping returns Python
None, which the where clause of the mapping engine treats as the absence of
any filter, so every row matches. -/
theorem claim_C9_empty_mapping_matches_all (r : Row) :
    whereMatches (get_query_by_dict_param []) r = true := rfl

/-- C10: is_integrity_error answers true exactly when the exception's
concrete class is peewee's IntegrityError itself; an instance of a strict
subclass of IntegrityError (here the driver-level subclass, an isinstance
of IntegrityError but a distinct class) and an unrelated ValueError both
yield false. -/
theorem claim_C10_is_integrity_error_exact_class :
    (∀ e : PyExc, BasePeeweeStorage.is_integrity_error e = true ↔
      e.cls = ExcClass.integrityErrorCls) ∧
    BasePeeweeStorage.is_integrity_error ⟨ExcClass.driverIntegrityErrorCls⟩ = false ∧
    isInstanceOf ⟨ExcClass.driverIntegrityErrorCls⟩ ExcClass.integrityErrorCls = true ∧
    ExcClass.driverIntegrityErrorCls ≠ ExcClass.integrityErrorCls ∧
    BasePeeweeStorage.is_integrity_error ⟨ExcClass.valueErrorCls⟩ = false := by
  refine ⟨?_, rfl, rfl, by decide, rfl⟩
  intro e
  simp [BasePeeweeStorage.is_integrity_error]
